import Mathlib

/-!
Verification of the version reconciliation engine of the
`flutter-version-checker` GitHub action (`src/index.js`).

The JavaScript source is shallowly embedded here:

* JS strings are embedded as `List Char` (`Str` below); the string
  operations the source uses (`split`, `trim`, `startsWith`,
  `substring(1)`, template-literal rendering of numbers) are defined on
  that type, mirroring ECMAScript semantics.
* JS numbers that can be `NaN` (the build counter, which flows through
  `parseInt` without a `|| 0` guard) are embedded as `JSNum`; numbers
  that are always given a `|| 0` default are embedded as `Int`.  An
  integer-valued double is represented by its exact integer value, and
  IEEE-754 round-to-nearest-even (`roundDouble`) is applied wherever the
  source produces a double — at `parseInt` and at each addition — so
  unit precision is lost above 2^53 exactly as in JS.  Number-to-string
  rendering is plain decimal (JS switches to exponential notation only
  at 10^21, far above the 2^53-bounded statements proved below).
* Fallible operations (`semver.compare` throws `Invalid Version` on
  strings the strict semver grammar rejects) return `Except`.
* The side-effecting publish steps (`updatePubspecVersion`,
  `commitPushAndTag`, `createAndPushTag`) are embedded as explicit state
  transitions on `RepoState` that also emit the list of git operations
  performed.
-/

namespace FlutterAction

/-- JS strings are embedded as lists of characters. -/
abbrev Str := List Char

/-- The whitespace characters recognised by `String.prototype.trim` and by
`parseInt` when skipping leading whitespace (ASCII subset; the exotic
Unicode space characters never occur in version strings). -/
def isWS (c : Char) : Bool :=
  c = ' ' || c = '\t' || c = '\n' || c = '\r' || c = '\x0b' || c = '\x0c'

/-- Decimal digit test. -/
def isDig (c : Char) : Bool :=
  48 ≤ c.toNat && c.toNat ≤ 57

/-- Numeric value of a decimal digit character. -/
def digitVal (c : Char) : Nat := c.toNat - 48

/-- The decimal digit character for a value below 10 (`'*'` otherwise;
never reached on the values this development feeds it). -/
def digitChar : Nat → Char
  | 0 => '0' | 1 => '1' | 2 => '2' | 3 => '3' | 4 => '4'
  | 5 => '5' | 6 => '6' | 7 => '7' | 8 => '8' | 9 => '9'
  | _ => '*'

/-- Value of a big-endian digit string. -/
def digitsToNat (ds : Str) : Nat :=
  ds.foldl (fun a c => 10 * a + digitVal c) 0

/-- `s.split(sep)` for a single-character separator, as in ECMAScript:
splits at every occurrence, keeping empty pieces; the result is never
empty (`"".split('+') == [""]`). -/
def splitOnChar (sep : Char) : Str → List Str
  | [] => [[]]
  | c :: rest =>
    match splitOnChar sep rest with
    | [] => [[]]
    | s :: ss => if c = sep then [] :: s :: ss else (c :: s) :: ss

/-- `String.prototype.trim`. -/
def trimJS (s : Str) : Str :=
  ((s.dropWhile isWS).reverse.dropWhile isWS).reverse

/-- The longest digit run at the head of the string, as a value; `none`
when there is no leading digit (`parseInt` yields `NaN` there). -/
def leadDigits (r : Str) : Option Nat :=
  let ds := r.takeWhile isDig
  if ds = [] then none else some (digitsToNat ds)

/-- Number of binary digits of `n` (0 for 0), driven by a fuel argument
so that it is structurally recursive; `natBits` always supplies enough
fuel. -/
def bitLenAux : Nat → Nat → Nat
  | 0, _ => 0
  | fuel + 1, n => if n = 0 then 0 else bitLenAux fuel (n / 2) + 1

/-- Number of binary digits of `n`. -/
def natBits (n : Nat) : Nat := bitLenAux (n + 1) n

/-- IEEE-754 round-to-nearest-even of an integer to a binary64 double:
numbers up to 2^53 are exactly representable; above that, the value is
rounded to the nearest multiple of the binade's unit in the last place,
ties to the even significand. -/
def roundDoubleNat (n : Nat) : Nat :=
  if n ≤ 9007199254740992 then n
  else
    let e := natBits n - 53
    let p := 2 ^ e
    let q := n / p
    let r := n % p
    let half := 2 ^ (e - 1)
    if r < half then q * p
    else if half < r then (q + 1) * p
    else (if q % 2 = 0 then q else q + 1) * p

/-- Rounding of a signed integer to a double (the sign is exact). -/
def roundDouble (v : Int) : Int :=
  if v < 0 then -(roundDoubleNat v.natAbs : Int) else (roundDoubleNat v.natAbs : Int)

/-- Sign handling of `parseInt` once whitespace is gone.  `parseInt`
returns a double, so the exact digit value is rounded. -/
def parseIntCore (c : Char) (rest : Str) : Option Int :=
  if c = '-' then
    match leadDigits rest with
    | none => none
    | some n => some (-(roundDoubleNat n : Int))
  else if c = '+' then
    match leadDigits rest with
    | none => none
    | some n => some ((roundDoubleNat n : Int))
  else
    match leadDigits (c :: rest) with
    | none => none
    | some n => some ((roundDoubleNat n : Int))

/-- `parseInt(s, 10)`: skip leading whitespace, accept one optional sign,
then read the longest digit run, rounded to a double; `none` models
`NaN`. -/
def parseIntJS (s : Str) : Option Int :=
  match s.dropWhile isWS with
  | [] => none
  | c :: rest => parseIntCore c rest

/-- A JS number that may be `NaN` (the unguarded `parseInt` result used
for the build counter). -/
inductive JSNum where
  | nan : JSNum
  | int : Int → JSNum
deriving DecidableEq

/-- JS addition of an integer constant (`NaN + 1 == NaN`); the result is
a double, so the exact sum is rounded (above 2^53 the `+ 1` is lost). -/
def jsAdd : JSNum → Int → JSNum
  | .nan, _ => .nan
  | .int v, k => .int (roundDouble (v + k))

/-- JS `>` on build counters (`NaN > x` and `x > NaN` are false). -/
def jsGt : JSNum → JSNum → Bool
  | .int a, .int b => b < a
  | _, _ => false

/-- JS `<` on build counters (`NaN < x` and `x < NaN` are false). -/
def jsLt : JSNum → JSNum → Bool
  | .int a, .int b => a < b
  | _, _ => false

/-- The object returned by `parseFlutterVersion`. -/
structure FlutterVersion where
  major : Int
  minor : Int
  patch : Int
  build : JSNum
  base : Str
  full : Str
deriving DecidableEq

/-- `parseInt` applied to a possibly-missing component:
`parseInt(undefined, 10)` is `NaN`, embedded as `none`. -/
def optParseInt : Option Str → Option Int
  | none => none
  | some s => parseIntJS s

/-- `parseFlutterVersion(versionStr)` from `src/index.js`: `null` on a
falsy (empty) input, otherwise split on `'+'`, split the first piece on
`'.'`, and read the numeric components.  `major`/`minor`/`patch` carry
the `|| 0` guard; the build counter does not (a present but non-numeric
part after `'+'` yields `NaN`). -/
def parseFlutterVersion (versionStr : Str) : Option FlutterVersion :=
  if versionStr = [] then none
  else
    let parts := splitOnChar '+' versionStr
    let baseParts := splitOnChar '.' (parts.headD [])
    let buildNumber : JSNum :=
      match parts[1]? with
      | none => .int 0
      | some b =>
        if b = [] then .int 0
        else
          match parseIntJS b with
          | none => .nan
          | some v => .int v
    some
      { major := (optParseInt baseParts[0]?).getD 0
        minor := (optParseInt baseParts[1]?).getD 0
        patch := (optParseInt baseParts[2]?).getD 0
        build := buildNumber
        base := parts.headD []
        full := versionStr }

/-!
### The `semver` dependency

`compareVersions` delegates the comparison of the `major.minor.patch`
bases to `semver.compare` from the node-semver package (strict mode).
`semver.compare(a, b)` constructs `new SemVer(a)` and `new SemVer(b)`,
which **throw** `Invalid Version: <input>` when the input does not match
the strict grammar
`v? (0|[1-9]\d*) . (0|[1-9]\d*) . (0|[1-9]\d*) (-prerelease)? (+build)?`
(after trimming, with a 256-character length cap and each numeric
component capped at `Number.MAX_SAFE_INTEGER`), and otherwise compares
major, minor, patch numerically, then prerelease lists. -/

/-- `Number.MAX_SAFE_INTEGER` = 2^53 - 1. -/
def MAX_SAFE_INTEGER : Nat := 9007199254740991

/-- A prerelease identifier: numeric identifiers below
`MAX_SAFE_INTEGER` are stored as numbers, everything else as the raw
string (node-semver's constructor does the same). -/
inductive PreId where
  | num : Nat → PreId
  | str : Str → PreId
deriving DecidableEq

/-- A parsed strict semver version. -/
structure SemVer where
  major : Nat
  minor : Nat
  patch : Nat
  pre : List PreId
deriving DecidableEq

/-- One numeric component of the strict grammar: `0`, or a digit run not
starting with `0`.  Returns the value and the unconsumed rest. -/
def parseNumeralStrict (s : Str) : Option (Nat × Str) :=
  match s with
  | [] => none
  | c :: rest =>
    if c = '0' then some (0, rest)
    else if isDig c then
      some (digitsToNat ((c :: rest).takeWhile isDig), (c :: rest).dropWhile isDig)
    else none

/-- Expect a literal `'.'`. -/
def expectDot (s : Str) : Option Str :=
  match s with
  | c :: r => if c = '.' then some r else none
  | [] => none

/-- The `major.minor.patch` part of the strict grammar. -/
def semverMain (t : Str) : Option (Nat × Nat × Nat × Str) :=
  match parseNumeralStrict t with
  | none => none
  | some (maj, r1) =>
    match expectDot r1 with
    | none => none
    | some r2 =>
      match parseNumeralStrict r2 with
      | none => none
      | some (minr, r3) =>
        match expectDot r3 with
        | none => none
        | some r4 =>
          match parseNumeralStrict r4 with
          | none => none
          | some (pat, r5) => some (maj, minr, pat, r5)

/-- Characters allowed inside prerelease/build identifiers. -/
def isIdChar (c : Char) : Bool :=
  isDig c || (65 ≤ c.toNat && c.toNat ≤ 90) || (97 ≤ c.toNat && c.toNat ≤ 122) || c = '-'

/-- Classify one prerelease identifier run: all-digit runs must not have
a leading zero (strict grammar) and become numbers when below
`MAX_SAFE_INTEGER`; runs containing a letter or hyphen stay strings. -/
def preIdOf (run : Str) : Option PreId :=
  if run.all isDig then
    match run with
    | [] => none
    | c :: rest =>
      if c = '0' ∧ rest ≠ [] then none
      else
        let v := digitsToNat run
        some (if v < MAX_SAFE_INTEGER then .num v else .str run)
  else some (.str run)

/-- Dot-separated prerelease identifiers (fuel-driven loop over the
remaining string; the fuel passed in is always sufficient). -/
def parsePreIds : Nat → Str → Option (List PreId × Str)
  | 0, _ => none
  | fuel + 1, s =>
    let run := s.takeWhile isIdChar
    if run = [] then none
    else
      match preIdOf run with
      | none => none
      | some id =>
        match s.dropWhile isIdChar with
        | c :: r2 =>
          if c = '.' then (parsePreIds fuel r2).map (fun p => (id :: p.1, p.2))
          else some ([id], c :: r2)
        | [] => some ([id], [])

/-- Dot-separated build identifiers (`[0-9A-Za-z-]+`, no shape check),
which must consume the whole rest of the string. -/
def buildOk : Nat → Str → Bool
  | 0, _ => false
  | fuel + 1, s =>
    let run := s.takeWhile isIdChar
    if run = [] then false
    else
      match s.dropWhile isIdChar with
      | [] => true
      | c :: r2 => if c = '.' then buildOk fuel r2 else false

/-- What may follow the `major.minor.patch` triple: nothing, a
`-prerelease` (optionally followed by `+build`), or a `+build`. -/
def parseTail (s : Str) : Option (List PreId) :=
  match s with
  | [] => some []
  | c :: r =>
    if c = '-' then
      match parsePreIds (r.length + 1) r with
      | none => none
      | some (ids, rest) =>
        match rest with
        | [] => some ids
        | c2 :: r2 => if c2 = '+' then (if buildOk (r2.length + 1) r2 then some ids else none) else none
    else if c = '+' then (if buildOk (r.length + 1) r then some [] else none)
    else none

/-- Strip the optional leading `'v'` the strict grammar allows. -/
def vStrip (t : Str) : Str :=
  match t with
  | c :: r => if c = 'v' then r else c :: r
  | [] => []

/-- The constructor's numeric-bound checks and the prerelease/build tail,
applied to the result of the `major.minor.patch` grammar. -/
def semverFinish : Option (Nat × Nat × Nat × Str) → Option SemVer
  | none => none
  | some (maj, minr, pat, rest) =>
    if MAX_SAFE_INTEGER < maj then none
    else if MAX_SAFE_INTEGER < minr then none
    else if MAX_SAFE_INTEGER < pat then none
    else
      match parseTail rest with
      | none => none
      | some pre => some ⟨maj, minr, pat, pre⟩

/-- `new SemVer(s)` (strict): `none` models the thrown
`Invalid Version`. -/
def semverParse (s : Str) : Option SemVer :=
  if 256 < s.length then none
  else semverFinish (semverMain (vStrip (trimJS s)))

/-- Three-way comparison of naturals as `-1 | 0 | 1`. -/
def cmpNat (a b : Nat) : Int :=
  if a < b then -1 else if b < a then 1 else 0

/-- JS `<` on strings: lexicographic by UTF-16 code unit (code points
suffice for the ASCII identifiers that occur here). -/
def cmpStr : Str → Str → Int
  | [], [] => 0
  | [], _ :: _ => -1
  | _ :: _, [] => 1
  | a :: as, b :: bs =>
    if a.toNat < b.toNat then -1
    else if b.toNat < a.toNat then 1
    else cmpStr as bs

/-- node-semver's `compareIdentifiers`: numeric identifiers compare
numerically and sort below alphanumeric ones; two alphanumeric
identifiers compare as JS strings.  An all-digit string identifier
(value ≥ 2^53 - 1) still counts as numeric. -/
def preIdNum? : PreId → Option Nat
  | .num n => some n
  | .str s => if s ≠ [] ∧ s.all isDig then some (digitsToNat s) else none

/-- Comparison of two prerelease identifiers. -/
def preIdCmp (a b : PreId) : Int :=
  match preIdNum? a, preIdNum? b with
  | some x, some y => cmpNat x y
  | some _, none => -1
  | none, some _ => 1
  | none, none =>
    match a, b with
    | .str x, .str y => cmpStr x y
    | _, _ => 0

/-- The identifier-by-identifier loop of `comparePre`: a missing
identifier sorts below a present one. -/
def preLoop : List PreId → List PreId → Int
  | [], [] => 0
  | _ :: _, [] => 1
  | [], _ :: _ => -1
  | a :: as, b :: bs => if a = b then preLoop as bs else preIdCmp a b

/-- `comparePre`: a version **with** a prerelease sorts below the same
version without one; otherwise compare identifier lists. -/
def semverCmpPre (a b : List PreId) : Int :=
  match a, b with
  | [], [] => 0
  | _ :: _, [] => -1
  | [], _ :: _ => 1
  | _ :: _, _ :: _ => preLoop a b

/-- `SemVer.prototype.compare`: `compareMain || comparePre`. -/
def semverCmp (a b : SemVer) : Int :=
  let mj := cmpNat a.major b.major
  if mj ≠ 0 then mj
  else
    let mn := cmpNat a.minor b.minor
    if mn ≠ 0 then mn
    else
      let mp := cmpNat a.patch b.patch
      if mp ≠ 0 then mp
      else semverCmpPre a.pre b.pre

/-- The message of the `TypeError` node-semver throws. -/
def invalidMsg (v : Str) : Str :=
  ("Invalid Version: ").toList ++ v

/-- `semver.compare(a, b)`: parse `a` first, then `b`; a parse failure
throws (modelled as `Except.error`). -/
def semverCompare (a b : Str) : Except Str Int :=
  match semverParse a with
  | none => .error (invalidMsg a)
  | some x =>
    match semverParse b with
    | none => .error (invalidMsg b)
    | some y => .ok (semverCmp x y)

/-- `compareVersions(current, previous)` from `src/index.js`: parse both
with the permissive parser; if either is `null` return `0`; otherwise
compare the bases with `semver.compare` (which can throw) and, on a tie,
compare build counters with JS `>` / `<`. -/
def compareVersions (current previous : Str) : Except Str Int :=
  match parseFlutterVersion current with
  | none => .ok 0
  | some currentParsed =>
    match parseFlutterVersion previous with
    | none => .ok 0
    | some previousParsed =>
      match semverCompare currentParsed.base previousParsed.base with
      | .error e => .error e
      | .ok baseComparison =>
        if baseComparison ≠ 0 then .ok baseComparison
        else if jsGt currentParsed.build previousParsed.build then .ok 1
        else if jsLt currentParsed.build previousParsed.build then .ok (-1)
        else .ok 0

/-!
### Rendering numbers back to strings (template literals)
-/

/-- Big-endian decimal digits of `n` (structural recursion on a fuel
argument; `natRender` always supplies enough fuel).  Empty for `n = 0`. -/
def natRenderAux : Nat → Nat → Str
  | 0, _ => []
  | fuel + 1, n =>
    if n = 0 then []
    else natRenderAux fuel (n / 10) ++ [digitChar (n % 10)]

/-- Decimal rendering of a natural number. -/
def natRender (n : Nat) : Str :=
  if n = 0 then ['0'] else natRenderAux (n + 1) n

/-- Decimal rendering of an integer (JS `ToString` on an integral
number). -/
def intRender (v : Int) : Str :=
  if v < 0 then '-' :: natRender v.natAbs else natRender v.toNat

/-- JS `ToString` of a possibly-`NaN` number. -/
def jsNumRender : JSNum → Str
  | .nan => ("NaN").toList
  | .int v => intRender v

/-- `generateNextVersion(previousVersion)` from `src/index.js`:
`'1.0.0+1'` when the input does not parse, otherwise the template
literal over major, minor, patch+1, build+1 — both `+ 1` computed in
double arithmetic (rounded). -/
def generateNextVersion (previousVersion : Str) : Str :=
  match parseFlutterVersion previousVersion with
  | none => ("1.0.0+1").toList
  | some parsed =>
    intRender parsed.major ++ '.' :: intRender parsed.minor ++
      '.' :: intRender (roundDouble (parsed.patch + 1)) ++
      '+' :: jsNumRender (jsAdd parsed.build 1)

/-!
### The scenario decision of `run()`

`run()` reads the declared version from `pubspec.yaml` and the latest
tag, then branches on `compareVersions`.  `runDecide` captures, per
branch: the scenario taken, the version that ends up in the manifest and
the tag (`finalVersion`), whether the manifest is rewritten, whether a
commit/push is attempted, whether a tag is created, the `previousVersion`
argument handed to `commitPushAndTag` (the identifier cited as
"Previous version" in the default commit message; `none` when no commit
happens), and the four action outputs. -/

/-- The four scenarios of `run()`. -/
inductive Scenario where
  | bootstrap : Scenario
  | same : Scenario
  | regressed : Scenario
  | ahead : Scenario
deriving DecidableEq

/-- The decision and outputs of one `run()` invocation. -/
structure RunResult where
  scenario : Scenario
  finalVersion : Str
  mustWriteManifest : Bool
  mustCommit : Bool
  mustCreateMarker : Bool
  commitPrev : Option Str
  previousOut : Str
  currentOut : Str
  updatedOut : Bool
  newOut : Str
deriving DecidableEq

/-- The literal `'none'` reported as `previous-version` in the first
release scenario. -/
def noneLit : Str := ("none").toList

/-- The pure decision core of `run()` (src/index.js lines 325–419);
`Except.error` models `compareVersions` throwing, which the surrounding
`try/catch` converts into a failed action. -/
def runDecide (currentVersion : Str) (previousTagVersion : Option Str) :
    Except Str RunResult :=
  match previousTagVersion with
  | none =>
    .ok ⟨.bootstrap, currentVersion, false, false, true, none,
         noneLit, currentVersion, false, currentVersion⟩
  | some prev =>
    match compareVersions currentVersion prev with
    | .error e => .error e
    | .ok comparison =>
      if comparison = 0 then
        let newVersion := generateNextVersion currentVersion
        .ok ⟨.same, newVersion, true, true, true, some currentVersion,
             prev, newVersion, true, newVersion⟩
      else if comparison < 0 then
        let newVersion := generateNextVersion prev
        .ok ⟨.regressed, newVersion, true, true, true, some prev,
             prev, newVersion, true, newVersion⟩
      else
        .ok ⟨.ahead, currentVersion, false, false, true, none,
             prev, currentVersion, false, currentVersion⟩

/-!
### The marker resolver `getLatestTag()`
-/

/-- `getLatestTag()` from `src/index.js`.  Its input is the outcome of
`git tag --sort=-version:refname` (already trimmed by `execGit`):
`Except.error` models the enumeration throwing, which the `catch` block
turns into a warning and `null`.  On success: `null` for an empty tag
list, otherwise the first line, trimmed, with a single leading `'v'`
stripped when present — no other prefix is removed. -/
def getLatestTag (tagsResult : Except Str Str) : Option Str :=
  match tagsResult with
  | .error _ => none
  | .ok tags =>
    if tags = [] then none
    else
      let latestTag := trimJS ((splitOnChar '\n' tags).headD [])
      if latestTag = [] then none
      else some (vStrip latestTag)

/-!
### The publish executor

State of the working tree and tag store as the git commands see it, and
the trace of git operations a run performs.
-/

/-- Working-tree/tag-store state observed by the publish steps. -/
structure RepoState where
  manifestVersion : Str
  dirty : Bool
  tags : List Str
deriving DecidableEq

/-- One git-facing operation of the publish executor. -/
inductive GitStep where
  | writeManifest : Str → GitStep
  | statusQuery : GitStep
  | stageAdd : GitStep
  | commit : Str → GitStep
  | push : Str → GitStep
  | tagQuery : Str → GitStep
  | tagCreate : Str → GitStep
  | tagPush : Str → GitStep
deriving DecidableEq

/-- The default commit message template of `commitPushAndTag` (used when
no custom message is configured). -/
def defaultCommitMessage (newVersion previousVersion : Str) : Str :=
  ("🔧 Auto-increment version to ").toList ++ newVersion ++
  ("\n\nPrevious version: ").toList ++ previousVersion ++
  ("\nNew version: ").toList ++ newVersion ++
  ("\n[skip ci]").toList

/-- `createAndPushTag(version)`: check `git tag -l v<version>` and skip
when the tag already exists, otherwise create and push it. -/
def createAndPushTag (version : Str) (st : RepoState) : RepoState × List GitStep :=
  let tagName := 'v' :: version
  if tagName ∈ st.tags then (st, [.tagQuery tagName])
  else ({ st with tags := st.tags ++ [tagName] },
        [.tagQuery tagName, .tagCreate tagName, .tagPush tagName])

/-- `commitPushAndTag(branch, newVersion, previousVersion,
customMessage)`: when `git status --porcelain` reports nothing, return
early **without reaching the tag step**; otherwise stage, commit, push,
and only then create/push the tag. -/
def commitPushAndTag (branch newVersion previousVersion customMessage : Str)
    (st : RepoState) : RepoState × List GitStep :=
  let commitMessage :=
    if customMessage = [] then defaultCommitMessage newVersion previousVersion
    else customMessage
  if st.dirty = false then (st, [.statusQuery])
  else
    let st1 : RepoState := { st with dirty := false }
    let tagged := createAndPushTag newVersion st1
    (tagged.1, .statusQuery :: .stageAdd :: .commit commitMessage :: .push branch :: tagged.2)

/-- `updatePubspecVersion(path, newVersion)`: rewrite the manifest's
version field; the working tree becomes dirty exactly when the content
changes. -/
def updatePubspecVersion (newVersion : Str) (st : RepoState) : RepoState × List GitStep :=
  ({ st with
      manifestVersion := newVersion
      dirty := if st.manifestVersion = newVersion then st.dirty else true },
   [.writeManifest newVersion])

/-- The body of the SAME/REGRESSED branch of `run()` after the new
version is computed: update `pubspec.yaml`, then `commitPushAndTag`. -/
def executeBumpPlan (branch newVersion previousVersion customMessage : Str)
    (st : RepoState) : RepoState × List GitStep :=
  let w := updatePubspecVersion newVersion st
  let c := commitPushAndTag branch newVersion previousVersion customMessage w.1
  (c.1, w.2 ++ c.2)

/-- Whether a trace contains a `git tag -l` existence check. -/
def mentionsTagQuery (tr : List GitStep) : Bool :=
  tr.any fun s =>
    match s with
    | .tagQuery _ => true
    | _ => false

/-!
### Helper lemmas about the string primitives
-/

theorem takeWhile_append_all {p : Char → Bool} {a : Str} (b : Str)
    (h : ∀ c ∈ a, p c = true) : (a ++ b).takeWhile p = a ++ b.takeWhile p := by
  induction a with
  | nil => simp
  | cons c cs ih =>
    have hc : p c = true := h c (List.mem_cons_self c cs)
    simp [List.takeWhile_cons, hc, ih (fun x hx => h x (List.mem_cons_of_mem c hx))]

theorem dropWhile_append_all {p : Char → Bool} {a : Str} (b : Str)
    (h : ∀ c ∈ a, p c = true) : (a ++ b).dropWhile p = b.dropWhile p := by
  induction a with
  | nil => simp
  | cons c cs ih =>
    have hc : p c = true := h c (List.mem_cons_self c cs)
    simp [List.dropWhile_cons, hc, ih (fun x hx => h x (List.mem_cons_of_mem c hx))]

theorem takeWhile_eq_self_of_all {p : Char → Bool} {a : Str}
    (h : ∀ c ∈ a, p c = true) : a.takeWhile p = a := by
  have := takeWhile_append_all (p := p) (a := a) [] h
  simpa using this

theorem takeWhile_head_false {p : Char → Bool} {b : Str}
    (h : ∀ c, b.head? = some c → p c = false) : b.takeWhile p = [] := by
  cases b with
  | nil => rfl
  | cons c cs => simp [List.takeWhile_cons, h c rfl]

theorem dropWhile_head_false {p : Char → Bool} {b : Str}
    (h : ∀ c, b.head? = some c → p c = false) : b.dropWhile p = b := by
  cases b with
  | nil => rfl
  | cons c cs => simp [List.dropWhile_cons, h c rfl]

theorem dropWhile_eq_self_of_none {p : Char → Bool} {s : Str}
    (h : ∀ c ∈ s, p c = false) : s.dropWhile p = s := by
  cases s with
  | nil => rfl
  | cons c cs => simp [List.dropWhile_cons, h c (List.mem_cons_self c cs)]

theorem trimJS_eq_self {s : Str} (h : ∀ c ∈ s, isWS c = false) : trimJS s = s := by
  unfold trimJS
  rw [dropWhile_eq_self_of_none h,
      dropWhile_eq_self_of_none (fun c hc => h c (List.mem_reverse.mp hc)),
      List.reverse_reverse]

theorem splitOnChar_ne_nil (sep : Char) (s : Str) : splitOnChar sep s ≠ [] := by
  cases s with
  | nil => simp [splitOnChar]
  | cons c rest =>
    rw [splitOnChar]
    cases h : splitOnChar sep rest with
    | nil => simp
    | cons x xs => dsimp only; split <;> simp

theorem splitOnChar_of_not_mem {sep : Char} {s : Str} (h : sep ∉ s) :
    splitOnChar sep s = [s] := by
  induction s with
  | nil => rfl
  | cons c cs ih =>
    have hc : c ≠ sep := fun hcs => h (hcs ▸ List.mem_cons_self c cs)
    have hcs' : sep ∉ cs := fun hm => h (List.mem_cons_of_mem c hm)
    rw [splitOnChar, ih hcs']
    simp [hc]

theorem splitOnChar_append {sep : Char} {a : Str} (b : Str) (h : sep ∉ a) :
    splitOnChar sep (a ++ sep :: b) = a :: splitOnChar sep b := by
  induction a with
  | nil =>
    simp only [List.nil_append]
    rw [splitOnChar]
    cases hb : splitOnChar sep b with
    | nil => exact absurd hb (splitOnChar_ne_nil sep b)
    | cons x xs => simp
  | cons c cs ih =>
    have hc : c ≠ sep := fun hcs => h (hcs ▸ List.mem_cons_self c cs)
    have hcs' : sep ∉ cs := fun hm => h (List.mem_cons_of_mem c hm)
    simp only [List.cons_append]
    rw [splitOnChar, ih hcs']
    simp [hc]

theorem splitOnChar_head_spec (sep : Char) (s : Str) :
    sep ∉ (splitOnChar sep s).headD [] ∧
    (s = (splitOnChar sep s).headD [] ∨
     ∃ t, s = (splitOnChar sep s).headD [] ++ sep :: t) := by
  induction s with
  | nil => simp [splitOnChar]
  | cons c cs ih =>
    rw [splitOnChar]
    cases hcs : splitOnChar sep cs with
    | nil => exact absurd hcs (splitOnChar_ne_nil sep cs)
    | cons x xs =>
      rw [hcs] at ih
      by_cases hc : c = sep
      · subst hc
        refine ⟨by simp, Or.inr ⟨cs, by simp⟩⟩
      · simp only [if_neg hc, List.headD_cons] at ih ⊢
        refine ⟨?_, ?_⟩
        · intro hmem
          rcases List.mem_cons.mp hmem with h | h
          · exact hc h.symm
          · exact ih.1 h
        · rcases ih.2 with h | ⟨t, ht⟩
          · exact Or.inl (by rw [← h])
          · exact Or.inr ⟨t, by rw [List.cons_append, ← ht]⟩

theorem digitsToNat_append_singleton (ds : Str) (c : Char) :
    digitsToNat (ds ++ [c]) = 10 * digitsToNat ds + digitVal c := by
  simp [digitsToNat, List.foldl_append]

/-!
### Digit and decimal-rendering lemmas
-/

theorem digitVal_digitChar {k : Nat} (h : k < 10) : digitVal (digitChar k) = k := by
  interval_cases k <;> decide

theorem isDig_digitChar {k : Nat} (h : k < 10) : isDig (digitChar k) = true := by
  interval_cases k <;> decide

theorem digitChar_ne_zero {k : Nat} (h0 : k ≠ 0) (h : k < 10) : digitChar k ≠ '0' := by
  interval_cases k
  · exact absurd rfl h0
  all_goals decide

theorem not_isWS_of_isDig {c : Char} (h : isDig c = true) : isWS c = false := by
  cases hws : isWS c with
  | false => rfl
  | true =>
    simp only [isWS, Bool.or_eq_true, decide_eq_true_eq] at hws
    rcases hws with ((((h1 | h1) | h1) | h1) | h1) | h1 <;>
      (subst h1; exact absurd h (by decide))

theorem ne_plus_of_isDig {c : Char} (h : isDig c = true) : c ≠ '+' := by
  rintro rfl; exact absurd h (by decide)

theorem ne_dot_of_isDig {c : Char} (h : isDig c = true) : c ≠ '.' := by
  rintro rfl; exact absurd h (by decide)

theorem ne_dash_of_isDig {c : Char} (h : isDig c = true) : c ≠ '-' := by
  rintro rfl; exact absurd h (by decide)

theorem ne_v_of_isDig {c : Char} (h : isDig c = true) : c ≠ 'v' := by
  rintro rfl; exact absurd h (by decide)

theorem not_mem_of_all_isDig {l : Str} (h : ∀ c ∈ l, isDig c = true)
    {c : Char} (hc : isDig c = false) : c ∉ l := by
  intro hm
  rw [h c hm] at hc
  cases hc

theorem natRenderAux_zero (f : Nat) : natRenderAux f 0 = [] := by
  cases f <;> simp [natRenderAux]

theorem natRenderAux_digits :
    ∀ (f n : Nat), ∀ c ∈ natRenderAux f n, isDig c = true := by
  intro f
  induction f with
  | zero => intro n c hc; simp [natRenderAux] at hc
  | succ f ih =>
    intro n c hc
    by_cases hn : n = 0
    · simp [natRenderAux, hn] at hc
    · rw [natRenderAux, if_neg hn] at hc
      rcases List.mem_append.mp hc with h | h
      · exact ih _ _ h
      · simp only [List.mem_singleton] at h
        subst h
        exact isDig_digitChar (Nat.mod_lt _ (by omega))

theorem natRenderAux_value :
    ∀ (f n : Nat), n < 10 ^ f → digitsToNat (natRenderAux f n) = n := by
  intro f
  induction f with
  | zero =>
    intro n h
    have : n = 0 := by simpa using h
    subst this
    simp [natRenderAux, digitsToNat]
  | succ f ih =>
    intro n h
    by_cases hn : n = 0
    · subst hn; simp [natRenderAux, digitsToNat]
    · rw [natRenderAux, if_neg hn, digitsToNat_append_singleton,
          digitVal_digitChar (Nat.mod_lt _ (by omega)),
          ih (n / 10) ?_]
      · exact Nat.div_add_mod n 10
      · rw [Nat.div_lt_iff_lt_mul (by omega)]
        calc n < 10 ^ (f + 1) := h
          _ = 10 ^ f * 10 := by rw [pow_succ]

theorem natRenderAux_head :
    ∀ (f n : Nat), n ≠ 0 → n < 10 ^ f →
      ∃ c cs, natRenderAux f n = c :: cs ∧ isDig c = true ∧ c ≠ '0' := by
  intro f
  induction f with
  | zero => intro n h0 h; exact absurd (by simpa using h) h0
  | succ f ih =>
    intro n h0 h
    rw [natRenderAux, if_neg h0]
    by_cases hq : n / 10 = 0
    · have hlt : n < 10 := by
        have := (Nat.div_eq_zero_iff (by omega)).mp hq
        omega
      rw [hq, natRenderAux_zero, List.nil_append]
      refine ⟨digitChar (n % 10), [], rfl, isDig_digitChar (by omega), ?_⟩
      rw [Nat.mod_eq_of_lt hlt]
      exact digitChar_ne_zero h0 hlt
    · have hdiv : n / 10 < 10 ^ f := by
        rw [Nat.div_lt_iff_lt_mul (by omega)]
        calc n < 10 ^ (f + 1) := h
          _ = 10 ^ f * 10 := by rw [pow_succ]
      obtain ⟨c, cs, hcc, hd, hz⟩ := ih (n / 10) hq hdiv
      exact ⟨c, cs ++ [digitChar (n % 10)], by rw [hcc]; rfl, hd, hz⟩

theorem natRenderAux_length :
    ∀ (f k n : Nat), n < 10 ^ k → (natRenderAux f n).length ≤ k := by
  intro f
  induction f with
  | zero => intro k n h; simp [natRenderAux]
  | succ f ih =>
    intro k n h
    by_cases hn : n = 0
    · simp [natRenderAux, hn]
    · rw [natRenderAux, if_neg hn]
      have hk : k ≠ 0 := by
        rintro rfl
        exact hn (by simpa using h)
      obtain ⟨k', rfl⟩ : ∃ k', k = k' + 1 := ⟨k - 1, by omega⟩
      have hdiv : n / 10 < 10 ^ k' := by
        rw [Nat.div_lt_iff_lt_mul (by omega)]
        calc n < 10 ^ (k' + 1) := h
          _ = 10 ^ k' * 10 := by rw [pow_succ]
      have := ih k' (n / 10) hdiv
      simp only [List.length_append, List.length_cons, List.length_nil]
      omega

theorem natRender_digits (n : Nat) : ∀ c ∈ natRender n, isDig c = true := by
  unfold natRender
  split
  · intro c hc; simp only [List.mem_singleton] at hc; subst hc; decide
  · exact natRenderAux_digits (n + 1) n

theorem natRender_ne_nil (n : Nat) : natRender n ≠ [] := by
  unfold natRender
  split
  · simp
  · rename_i hn
    obtain ⟨c, cs, hcc, _, _⟩ :=
      natRenderAux_head (n + 1) n hn
        (lt_of_lt_of_le (Nat.lt_pow_self (by omega) n)
          (Nat.pow_le_pow_right (by omega) (by omega)))
    rw [hcc]
    simp

theorem natRender_value (n : Nat) : digitsToNat (natRender n) = n := by
  unfold natRender
  split
  · rename_i hn; subst hn; decide
  · exact natRenderAux_value (n + 1) n
      (lt_of_lt_of_le (Nat.lt_pow_self (by omega) n)
        (Nat.pow_le_pow_right (by omega) (by omega)))

theorem natRender_head (n : Nat) :
    ∃ c cs, natRender n = c :: cs ∧ isDig c = true := by
  unfold natRender
  split
  · exact ⟨'0', [], rfl, by decide⟩
  · rename_i hn
    obtain ⟨c, cs, hcc, hd, _⟩ :=
      natRenderAux_head (n + 1) n hn
        (lt_of_lt_of_le (Nat.lt_pow_self (by omega) n)
          (Nat.pow_le_pow_right (by omega) (by omega)))
    exact ⟨c, cs, hcc, hd⟩

theorem natRender_head_pos {n : Nat} (hn : n ≠ 0) :
    ∃ c cs, natRender n = c :: cs ∧ isDig c = true ∧ c ≠ '0' := by
  unfold natRender
  rw [if_neg hn]
  exact natRenderAux_head (n + 1) n hn
    (lt_of_lt_of_le (Nat.lt_pow_self (by omega) n)
      (Nat.pow_le_pow_right (by omega) (by omega)))

theorem natRender_length_max {n : Nat} (h : n ≤ MAX_SAFE_INTEGER) :
    (natRender n).length ≤ 16 := by
  unfold natRender
  split
  · simp
  · exact natRenderAux_length (n + 1) 16 n
      (lt_of_le_of_lt h (by unfold MAX_SAFE_INTEGER; norm_num))

/-!
### Round trips: parsing what the template literals render
-/

theorem leadDigits_append {n : Nat} (b : Str)
    (hb : ∀ c, b.head? = some c → isDig c = false) :
    leadDigits (natRender n ++ b) = some n := by
  unfold leadDigits
  rw [takeWhile_append_all b (natRender_digits n), takeWhile_head_false hb,
      List.append_nil]
  rw [if_neg (natRender_ne_nil n), natRender_value]

theorem leadDigits_render (n : Nat) : leadDigits (natRender n) = some n := by
  have := leadDigits_append (n := n) [] (by intro c hc; cases hc)
  simpa using this

theorem parseNumeralStrict_append {a : Nat} {b : Str}
    (hb : ∀ c, b.head? = some c → isDig c = false) :
    parseNumeralStrict (natRender a ++ b) = some (a, b) := by
  by_cases ha : a = 0
  · subst ha
    rw [show natRender 0 = ['0'] from rfl]
    rfl
  · obtain ⟨c, cs, hc, hd, hz⟩ := natRender_head_pos ha
    have hkey : natRender a ++ b = c :: (cs ++ b) := by rw [hc]; rfl
    rw [hkey]
    show parseNumeralStrict (c :: (cs ++ b)) = some (a, b)
    rw [parseNumeralStrict]
    rw [if_neg hz, if_pos hd]
    have htake : (c :: (cs ++ b)).takeWhile isDig = natRender a := by
      rw [← hkey, takeWhile_append_all b (natRender_digits a),
          takeWhile_head_false hb, List.append_nil]
    have hdrop : (c :: (cs ++ b)).dropWhile isDig = b := by
      rw [← hkey, dropWhile_append_all b (natRender_digits a),
          dropWhile_head_false hb]
    rw [htake, hdrop, natRender_value]

theorem intRender_chars (v : Int) : ∀ c ∈ intRender v, isDig c = true ∨ c = '-' := by
  unfold intRender
  split
  · intro c hc
    rcases List.mem_cons.mp hc with h | h
    · exact Or.inr h
    · exact Or.inl (natRender_digits _ c h)
  · intro c hc
    exact Or.inl (natRender_digits _ c hc)

theorem intRender_ne_nil (v : Int) : intRender v ≠ [] := by
  unfold intRender
  split
  · simp
  · exact natRender_ne_nil _

theorem plus_not_mem_intRender (v : Int) : '+' ∉ intRender v := by
  intro hm
  rcases intRender_chars v '+' hm with h | h
  · exact absurd h (by decide)
  · cases h

theorem dot_not_mem_intRender (v : Int) : '.' ∉ intRender v := by
  intro hm
  rcases intRender_chars v '.' hm with h | h
  · exact absurd h (by decide)
  · cases h

theorem parseIntJS_cons {s : Str} {c : Char} {r : Str}
    (h : s.dropWhile isWS = c :: r) : parseIntJS s = parseIntCore c r := by
  rw [parseIntJS, h]

theorem roundDoubleNat_eq_self {n : Nat} (h : n ≤ 9007199254740992) :
    roundDoubleNat n = n := by
  unfold roundDoubleNat
  rw [if_pos h]

theorem roundDouble_eq_self {v : Int} (h : v.natAbs ≤ 9007199254740992) :
    roundDouble v = v := by
  unfold roundDouble
  split
  · rename_i hneg
    rw [roundDoubleNat_eq_self h, Int.ofNat_natAbs_of_nonpos (le_of_lt hneg), neg_neg]
  · rename_i hneg
    rw [roundDoubleNat_eq_self h]
    exact Int.natAbs_of_nonneg (not_lt.mp hneg)

theorem parseIntJS_intRender (v : Int) : parseIntJS (intRender v) = some (roundDouble v) := by
  unfold intRender
  split
  · rename_i hneg
    rw [parseIntJS_cons (c := '-') (r := natRender v.natAbs)
        (dropWhile_head_false (p := isWS)
          (by intro c hc; simp only [List.head?_cons, Option.some.injEq] at hc
              subst hc; decide))]
    rw [parseIntCore, if_pos rfl, leadDigits_render]
    show some (-(roundDoubleNat v.natAbs : Int)) = some (roundDouble v)
    congr 1
    rw [roundDouble, if_pos hneg]
  · rename_i hneg
    obtain ⟨c, cs, hc, hd⟩ := natRender_head v.toNat
    rw [hc]
    rw [parseIntJS_cons (c := c) (r := cs)
        (dropWhile_head_false (p := isWS)
          (by intro x hx
              simp only [List.head?_cons, Option.some.injEq] at hx
              subst hx
              exact not_isWS_of_isDig hd))]
    have hcd : c ≠ '-' := ne_dash_of_isDig hd
    have hcp : c ≠ '+' := ne_plus_of_isDig hd
    rw [parseIntCore, if_neg hcd, if_neg hcp, ← hc, leadDigits_render]
    show some ((roundDoubleNat v.toNat : Int)) = some (roundDouble v)
    rw [roundDouble, if_neg hneg]
    have htn : v.toNat = v.natAbs := by omega
    rw [htn]

theorem parseIntJS_jsNumRender_nan : parseIntJS (jsNumRender .nan) = none := by decide

theorem jsNumRender_ne_nil (b : JSNum) : jsNumRender b ≠ [] := by
  cases b with
  | nan => decide
  | int v => exact intRender_ne_nil v

theorem plus_not_mem_jsNumRender (b : JSNum) : '+' ∉ jsNumRender b := by
  cases b with
  | nan => decide
  | int v => exact plus_not_mem_intRender v

/-!
### Parsing canonically rendered versions
-/

theorem parseNumeralStrict_render (a : Nat) :
    parseNumeralStrict (natRender a) = some (a, []) := by
  have := parseNumeralStrict_append (a := a) (b := []) (by intro c hc; cases hc)
  simpa using this

theorem dotHead_not_dig (l : Str) :
    ∀ x, ('.' :: l).head? = some x → isDig x = false := by
  intro x hx
  simp only [List.head?_cons, Option.some.injEq] at hx
  subst hx
  decide

theorem semverMain_canonical (a b c : Nat) :
    semverMain (natRender a ++ '.' :: (natRender b ++ '.' :: natRender c)) =
      some (a, b, c, []) := by
  rw [semverMain,
      parseNumeralStrict_append (a := a)
        (b := '.' :: (natRender b ++ '.' :: natRender c)) (dotHead_not_dig _)]
  show (match expectDot ('.' :: (natRender b ++ '.' :: natRender c)) with
        | none => none
        | some r2 =>
          match parseNumeralStrict r2 with
          | none => none
          | some (minr, r3) =>
            match expectDot r3 with
            | none => none
            | some r4 =>
              match parseNumeralStrict r4 with
              | none => none
              | some (pat, r5) => some (a, minr, pat, r5)) = some (a, b, c, [])
  show (match parseNumeralStrict (natRender b ++ '.' :: natRender c) with
        | none => none
        | some (minr, r3) =>
          match expectDot r3 with
          | none => none
          | some r4 =>
            match parseNumeralStrict r4 with
            | none => none
            | some (pat, r5) => some (a, minr, pat, r5)) = some (a, b, c, [])
  rw [parseNumeralStrict_append (a := b) (b := '.' :: natRender c) (dotHead_not_dig _)]
  show (match parseNumeralStrict (natRender c) with
        | none => none
        | some (pat, r5) => some (a, b, pat, r5)) = some (a, b, c, [])
  rw [parseNumeralStrict_render c]

theorem semverParse_canonical {a b c : Nat} (ha : a ≤ MAX_SAFE_INTEGER)
    (hb : b ≤ MAX_SAFE_INTEGER) (hc : c ≤ MAX_SAFE_INTEGER) :
    semverParse (natRender a ++ '.' :: (natRender b ++ '.' :: natRender c)) =
      some ⟨a, b, c, []⟩ := by
  have hchars : ∀ x ∈ natRender a ++ '.' :: (natRender b ++ '.' :: natRender c),
      isDig x = true ∨ x = '.' := by
    intro x hx
    rcases List.mem_append.mp hx with h | h
    · exact Or.inl (natRender_digits a x h)
    · rcases List.mem_cons.mp h with h | h
      · exact Or.inr h
      · rcases List.mem_append.mp h with h | h
        · exact Or.inl (natRender_digits b x h)
        · rcases List.mem_cons.mp h with h | h
          · exact Or.inr h
          · exact Or.inl (natRender_digits c x h)
  have hlen : ¬ (256 <
      (natRender a ++ '.' :: (natRender b ++ '.' :: natRender c)).length) := by
    have la := natRender_length_max ha
    have lb := natRender_length_max hb
    have lc := natRender_length_max hc
    simp only [List.length_append, List.length_cons]
    omega
  have htrim : trimJS (natRender a ++ '.' :: (natRender b ++ '.' :: natRender c)) =
      natRender a ++ '.' :: (natRender b ++ '.' :: natRender c) :=
    trimJS_eq_self (by
      intro x hx
      rcases hchars x hx with h | h
      · exact not_isWS_of_isDig h
      · subst h; decide)
  obtain ⟨ch, cs, hch, hd⟩ := natRender_head a
  have hvstrip : vStrip (natRender a ++ '.' :: (natRender b ++ '.' :: natRender c)) =
      natRender a ++ '.' :: (natRender b ++ '.' :: natRender c) := by
    rw [hch, List.cons_append, vStrip, if_neg (ne_v_of_isDig hd)]
  rw [semverParse, if_neg hlen, htrim, hvstrip, semverMain_canonical, semverFinish,
      if_neg (not_lt.mpr ha), if_neg (not_lt.mpr hb), if_neg (not_lt.mpr hc)]
  rfl

theorem semverParse_bounds {s : Str} {sv : SemVer} (h : semverParse s = some sv) :
    sv.major ≤ MAX_SAFE_INTEGER ∧ sv.minor ≤ MAX_SAFE_INTEGER ∧
    sv.patch ≤ MAX_SAFE_INTEGER := by
  rw [semverParse] at h
  split at h
  · cases h
  · cases hm : semverMain (vStrip (trimJS s)) with
    | none => rw [hm] at h; cases h
    | some q =>
      obtain ⟨maj, minr, pat, rest⟩ := q
      rw [hm, semverFinish] at h
      split at h
      · cases h
      · split at h
        · cases h
        · split at h
          · cases h
          · split at h
            · cases h
            · cases h
              simp only []
              omega

/-!
### Parsing the string produced by `generateNextVersion`
-/

theorem parseFlutterVersion_append_plus {T B : Str} (hT : '+' ∉ T) (hB : '+' ∉ B)
    (hBne : B ≠ []) :
    parseFlutterVersion (T ++ '+' :: B) = some
      { major := (optParseInt (splitOnChar '.' T)[0]?).getD 0
        minor := (optParseInt (splitOnChar '.' T)[1]?).getD 0
        patch := (optParseInt (splitOnChar '.' T)[2]?).getD 0
        build := match parseIntJS B with
                 | none => .nan
                 | some v => .int v
        base := T
        full := T ++ '+' :: B } := by
  have hne : T ++ '+' :: B ≠ [] := by simp
  have hsplit : splitOnChar '+' (T ++ '+' :: B) = [T, B] := by
    rw [splitOnChar_append B hT, splitOnChar_of_not_mem hB]
  rw [parseFlutterVersion, if_neg hne]
  simp only [hsplit, List.headD_cons, List.getElem?_cons_succ, List.getElem?_cons_zero]
  rw [if_neg hBne]

theorem plus_not_mem_triple (u v w : Int) :
    '+' ∉ intRender u ++ '.' :: (intRender v ++ '.' :: intRender w) := by
  intro hm
  rcases List.mem_append.mp hm with h | h
  · exact plus_not_mem_intRender u h
  · rcases List.mem_cons.mp h with h | h
    · cases h
    · rcases List.mem_append.mp h with h | h
      · exact plus_not_mem_intRender v h
      · rcases List.mem_cons.mp h with h | h
        · cases h
        · exact plus_not_mem_intRender w h

theorem splitOnChar_dot_triple (u v w : Int) :
    splitOnChar '.' (intRender u ++ '.' :: (intRender v ++ '.' :: intRender w)) =
      [intRender u, intRender v, intRender w] := by
  rw [splitOnChar_append _ (dot_not_mem_intRender u),
      splitOnChar_append _ (dot_not_mem_intRender v),
      splitOnChar_of_not_mem (dot_not_mem_intRender w)]

theorem generateNext_parse {x : Str} {p : FlutterVersion}
    (hp : parseFlutterVersion x = some p) :
    parseFlutterVersion (generateNextVersion x) = some
      { major := roundDouble p.major
        minor := roundDouble p.minor
        patch := roundDouble (roundDouble (p.patch + 1))
        build := match p.build with
                 | .nan => .nan
                 | .int v => .int (roundDouble (roundDouble (v + 1)))
        base := intRender p.major ++ '.' ::
          (intRender p.minor ++ '.' :: intRender (roundDouble (p.patch + 1)))
        full := generateNextVersion x } := by
  have hgen : generateNextVersion x =
      (intRender p.major ++ '.' ::
        (intRender p.minor ++ '.' :: intRender (roundDouble (p.patch + 1))))
        ++ '+' :: jsNumRender (jsAdd p.build 1) := by
    rw [generateNextVersion, hp]
    simp [List.append_assoc]
  have hbuild :
      (match parseIntJS (jsNumRender (jsAdd p.build 1)) with
       | none => JSNum.nan
       | some v => JSNum.int v) =
      (match p.build with
       | JSNum.nan => JSNum.nan
       | JSNum.int v => JSNum.int (roundDouble (roundDouble (v + 1)))) := by
    cases hb : p.build with
    | nan => rw [show jsAdd JSNum.nan 1 = JSNum.nan from rfl, parseIntJS_jsNumRender_nan]
    | int v =>
      rw [show jsAdd (JSNum.int v) 1 = JSNum.int (roundDouble (v + 1)) from rfl]
      rw [show jsNumRender (JSNum.int (roundDouble (v + 1))) =
            intRender (roundDouble (v + 1)) from rfl,
          parseIntJS_intRender]
  conv_lhs => rw [hgen]
  rw [parseFlutterVersion_append_plus (plus_not_mem_triple _ _ _)
      (plus_not_mem_jsNumRender _) (jsNumRender_ne_nil _)]
  rw [splitOnChar_dot_triple]
  simp only [List.getElem?_cons_zero, List.getElem?_cons_succ, optParseInt,
    parseIntJS_intRender, Option.getD_some, hbuild, hgen]

/-!
### Characterizations of `runDecide` and the split head
-/

theorem runDecide_some (d l : Str) (c : Int) (h : compareVersions d l = .ok c) :
    runDecide d (some l) =
      if c = 0 then
        .ok ⟨.same, generateNextVersion d, true, true, true, some d, l,
          generateNextVersion d, true, generateNextVersion d⟩
      else if c < 0 then
        .ok ⟨.regressed, generateNextVersion l, true, true, true, some l, l,
          generateNextVersion l, true, generateNextVersion l⟩
      else
        .ok ⟨.ahead, d, false, false, true, none, l, d, false, d⟩ := by
  rw [runDecide, h]

theorem runDecide_error (d l : Str) (e : Str) (h : compareVersions d l = .error e) :
    runDecide d (some l) = .error e := by
  rw [runDecide, h]

theorem splitOnChar_head_decomp (sep : Char) (s : Str) :
    s = (splitOnChar sep s).headD [] ++
        List.drop ((splitOnChar sep s).headD []).length s
    ∧ (List.drop ((splitOnChar sep s).headD []).length s = [] ∨
       (List.drop ((splitOnChar sep s).headD []).length s).head? = some sep) := by
  obtain ⟨hmem, hsplit⟩ := splitOnChar_head_spec sep s
  set H := (splitOnChar sep s).headD [] with hH
  rcases hsplit with hcase | ⟨t, hcase⟩
  · constructor
    · conv_lhs => rw [hcase]
      rw [hcase, List.drop_length, List.append_nil]
    · left
      rw [hcase, List.drop_length]
  · constructor
    · conv_lhs => rw [hcase]
      rw [hcase, List.drop_left]
    · right
      rw [hcase, List.drop_left]
      rfl

/-!
### Claim theorems
-/

/-- C1: for every declared version string and every latest-marker value,
the reconciliation selects exactly one of four scenarios by one
comparison and produces the plan of the table — latest `none` gives the
declared identifier with no manifest write and no commit; EQUAL gives
`increment(declared)` with write and commit; LESS gives
`increment(latest)` with write and commit; GREATER gives the declared
identifier with no write and no commit; a marker is created in every
scenario, and the `updated` flag is true exactly when the manifest is
written. -/
theorem claim_C1 (d l : Str) :
    runDecide d none =
      .ok ⟨.bootstrap, d, false, false, true, none, noneLit, d, false, d⟩
    ∧ (compareVersions d l = .ok 0 →
        runDecide d (some l) = .ok ⟨.same, generateNextVersion d, true, true, true,
          some d, l, generateNextVersion d, true, generateNextVersion d⟩)
    ∧ (∀ c, compareVersions d l = .ok c → c < 0 →
        runDecide d (some l) = .ok ⟨.regressed, generateNextVersion l, true, true, true,
          some l, l, generateNextVersion l, true, generateNextVersion l⟩)
    ∧ (∀ c, compareVersions d l = .ok c → 0 < c →
        runDecide d (some l) = .ok ⟨.ahead, d, false, false, true, none, l, d, false, d⟩)
    ∧ (∀ r, runDecide d (some l) = .ok r →
        r.updatedOut = r.mustWriteManifest ∧ r.mustCreateMarker = true) := by
  refine ⟨rfl, ?_, ?_, ?_, ?_⟩
  · intro h
    rw [runDecide_some d l 0 h, if_pos rfl]
  · intro c h hc
    rw [runDecide_some d l c h, if_neg (show ¬(c = 0) by omega), if_pos hc]
  · intro c h hc
    rw [runDecide_some d l c h, if_neg (show ¬(c = 0) by omega),
        if_neg (show ¬(c < 0) by omega)]
  · intro r h
    cases hcv : compareVersions d l with
    | error e => rw [runDecide_error d l e hcv] at h; cases h
    | ok c =>
      rw [runDecide_some d l c hcv] at h
      by_cases h0 : c = 0
      · rw [if_pos h0] at h; cases h; exact ⟨rfl, rfl⟩
      · rw [if_neg h0] at h
        by_cases hlt : c < 0
        · rw [if_pos hlt] at h; cases h; exact ⟨rfl, rfl⟩
        · rw [if_neg hlt] at h; cases h; exact ⟨rfl, rfl⟩

/-- C1 witness: at declared = latest = `1.0.0+1` the comparison is EQUAL
and the plan is the SAME plan with final identifier `1.0.1+2`. -/
theorem claim_C1_witness :
    runDecide (("1.0.0+1").toList) (some (("1.0.0+1").toList)) =
      .ok ⟨.same, ("1.0.1+2").toList, true, true, true,
        some (("1.0.0+1").toList), ("1.0.0+1").toList, ("1.0.1+2").toList,
        true, ("1.0.1+2").toList⟩ := by
  have h := (claim_C1 (("1.0.0+1").toList) (("1.0.0+1").toList)).2.1 rfl
  exact h

/-- C10: in every scenario that completes, the `new-version` output
equals the `current-version` output, including the BOOTSTRAP and AHEAD
scenarios where `version-updated` is false. -/
theorem claim_C10 (d : Str) (l : Option Str) (r : RunResult)
    (h : runDecide d l = .ok r) : r.newOut = r.currentOut := by
  cases l with
  | none =>
    simp only [runDecide] at h
    cases h
    rfl
  | some prev =>
    cases hcv : compareVersions d prev with
    | error e => rw [runDecide_error d prev e hcv] at h; cases h
    | ok c =>
      rw [runDecide_some d prev c hcv] at h
      by_cases h0 : c = 0
      · rw [if_pos h0] at h; cases h; rfl
      · rw [if_neg h0] at h
        by_cases hlt : c < 0
        · rw [if_pos hlt] at h; cases h; rfl
        · rw [if_neg hlt] at h; cases h; rfl

/-- C10 witness: at declared `1.5.4+16` against latest `1.5.3+15` (the
AHEAD scenario, `version-updated` false) both outputs are `1.5.4+16`. -/
theorem claim_C10_witness :
    RunResult.newOut ⟨.ahead, ("1.5.4+16").toList, false, false, true, none,
        ("1.5.3+15").toList, ("1.5.4+16").toList, false, ("1.5.4+16").toList⟩ =
      RunResult.currentOut ⟨.ahead, ("1.5.4+16").toList, false, false, true, none,
        ("1.5.3+15").toList, ("1.5.4+16").toList, false, ("1.5.4+16").toList⟩ :=
  claim_C10 (("1.5.4+16").toList) (some (("1.5.3+15").toList)) _ rfl

/-- C3 counterexample: parsing `"1+x"` (part after `'+'` present but
non-numeric) produces build counter `NaN`, not `0` as the claim
states. -/
theorem claim_C3_cex :
    parseFlutterVersion (("1+x").toList) =
      some ⟨1, 0, 0, .nan, ("1").toList, ("1+x").toList⟩
    ∧ JSNum.nan ≠ JSNum.int 0 := ⟨rfl, by decide⟩

/-- C3 amended: parse is total and yields `none` exactly on the empty
input; each of major, minor, patch is 0 whenever its component is
missing or non-numeric; the build counter is 0 when the part after the
first `'+'` is absent or empty, but `NaN` (not 0) when it is present and
non-numeric. -/
theorem claim_C3_amended (s : Str) (p : FlutterVersion) :
    (parseFlutterVersion s = none ↔ s = [])
    ∧ (parseFlutterVersion s = some p →
        (optParseInt (splitOnChar '.' ((splitOnChar '+' s).headD []))[0]? = none →
          p.major = 0)
        ∧ (optParseInt (splitOnChar '.' ((splitOnChar '+' s).headD []))[1]? = none →
          p.minor = 0)
        ∧ (optParseInt (splitOnChar '.' ((splitOnChar '+' s).headD []))[2]? = none →
          p.patch = 0)
        ∧ ((splitOnChar '+' s)[1]? = none → p.build = .int 0)
        ∧ ((splitOnChar '+' s)[1]? = some [] → p.build = .int 0)
        ∧ (∀ bs, (splitOnChar '+' s)[1]? = some bs → bs ≠ [] →
            parseIntJS bs = none → p.build = .nan)) := by
  constructor
  · constructor
    · intro h
      by_cases hs : s = []
      · exact hs
      · rw [parseFlutterVersion, if_neg hs] at h
        cases h
    · intro h
      subst h
      rfl
  · intro h
    by_cases hs : s = []
    · subst hs
      cases h
    · rw [parseFlutterVersion, if_neg hs] at h
      cases h
      refine ⟨?_, ?_, ?_, ?_, ?_, ?_⟩
      · intro heq
        show (optParseInt (splitOnChar '.' ((splitOnChar '+' s).headD []))[0]?).getD 0 = 0
        rw [heq]
        rfl
      · intro heq
        show (optParseInt (splitOnChar '.' ((splitOnChar '+' s).headD []))[1]?).getD 0 = 0
        rw [heq]
        rfl
      · intro heq
        show (optParseInt (splitOnChar '.' ((splitOnChar '+' s).headD []))[2]?).getD 0 = 0
        rw [heq]
        rfl
      · intro heq
        show (match (splitOnChar '+' s)[1]? with
              | none => JSNum.int 0
              | some b =>
                if b = [] then JSNum.int 0
                else
                  match parseIntJS b with
                  | none => JSNum.nan
                  | some v => JSNum.int v) = JSNum.int 0
        rw [heq]
      · intro heq
        show (match (splitOnChar '+' s)[1]? with
              | none => JSNum.int 0
              | some b =>
                if b = [] then JSNum.int 0
                else
                  match parseIntJS b with
                  | none => JSNum.nan
                  | some v => JSNum.int v) = JSNum.int 0
        rw [heq]
        rfl
      · intro bs heq hne heqI
        show (match (splitOnChar '+' s)[1]? with
              | none => JSNum.int 0
              | some b =>
                if b = [] then JSNum.int 0
                else
                  match parseIntJS b with
                  | none => JSNum.nan
                  | some v => JSNum.int v) = JSNum.nan
        rw [heq]
        show (if bs = [] then JSNum.int 0
              else
                match parseIntJS bs with
                | none => JSNum.nan
                | some v => JSNum.int v) = JSNum.nan
        rw [if_neg hne, heqI]

/-- C3 witness: on `"x"` the major component is non-numeric and defaults
to 0, and on `"1+x"` the present non-numeric build part yields `NaN`. -/
theorem claim_C3_witness :
    FlutterVersion.major ⟨0, 0, 0, .int 0, ("x").toList, ("x").toList⟩ = 0
    ∧ FlutterVersion.build ⟨1, 0, 0, .nan, ("1").toList, ("1+x").toList⟩ = .nan := by
  have h1 := (claim_C3_amended (("x").toList)
    ⟨0, 0, 0, .int 0, ("x").toList, ("x").toList⟩).2 rfl
  have h2 := (claim_C3_amended (("1+x").toList)
    ⟨1, 0, 0, .nan, ("1").toList, ("1+x").toList⟩).2 rfl
  exact ⟨h1.1 rfl, h2.2.2.2.2.2 (("x").toList) rfl (by decide) rfl⟩

/-- C6 counterexample: parsing `"x"` yields an identifier whose numeric
fields are all 0 but whose `base` field is `"x"`, not `"0.0.0"` — the
base is the verbatim pre-`'+'` substring, not a rendering of the numeric
fields. -/
theorem claim_C6_cex :
    parseFlutterVersion (("x").toList) =
      some ⟨0, 0, 0, .int 0, ("x").toList, ("x").toList⟩
    ∧ intRender 0 ++ '.' :: (intRender 0 ++ '.' :: intRender 0) = ("0.0.0").toList
    ∧ (("x").toList : Str) ≠ ("0.0.0").toList := ⟨rfl, rfl, by decide⟩

/-- C6 amended: for every identifier produced by parse, `full` is the
input string verbatim and `base` is the verbatim part of the input
before the first `'+'` (so the input is `base`, optionally followed by
`'+'` and the rest); `base` is not in general re-derivable from the
numeric fields. -/
theorem claim_C6_amended (s : Str) (p : FlutterVersion)
    (h : parseFlutterVersion s = some p) :
    p.full = s
    ∧ p.base = (splitOnChar '+' s).headD []
    ∧ '+' ∉ p.base
    ∧ s = p.base ++ List.drop p.base.length s
    ∧ (List.drop p.base.length s = [] ∨
       (List.drop p.base.length s).head? = some '+') := by
  by_cases hs : s = []
  · subst hs; cases h
  · rw [parseFlutterVersion, if_neg hs] at h
    cases h
    obtain ⟨hmem, _⟩ := splitOnChar_head_spec '+' s
    obtain ⟨hdec1, hdec2⟩ := splitOnChar_head_decomp '+' s
    exact ⟨rfl, rfl, hmem, hdec1, hdec2⟩

/-- C6 witness: on the well-formed input `"1.0.0+1"` the parsed `base`
is the pre-`'+'` part `"1.0.0"` and `full` is the input itself. -/
theorem claim_C6_witness :
    FlutterVersion.full ⟨1, 0, 0, .int 1, ("1.0.0").toList, ("1.0.0+1").toList⟩ =
      ("1.0.0+1").toList
    ∧ FlutterVersion.base ⟨1, 0, 0, .int 1, ("1.0.0").toList, ("1.0.0+1").toList⟩ =
      (splitOnChar '+' (("1.0.0+1").toList)).headD [] := by
  have h := claim_C6_amended (("1.0.0+1").toList)
    ⟨1, 0, 0, .int 1, ("1.0.0").toList, ("1.0.0+1").toList⟩ rfl
  exact ⟨h.1, h.2.1⟩

/-- C7 counterexample: with declared `"1.0.0"` and latest marker
`"1.0.0+0"` the comparator returns EQUAL (SAME scenario), yet the
baseline handed to the commit step is the declared `"1.0.0"`, not the
latest marker's `"1.0.0+0"` — the two strings differ. -/
theorem claim_C7_cex :
    (runDecide (("1.0.0").toList) (some (("1.0.0+0").toList))).map
        (fun r => (r.scenario, r.commitPrev)) =
      .ok (Scenario.same, some (("1.0.0").toList))
    ∧ (("1.0.0").toList : Str) ≠ ("1.0.0+0").toList := ⟨rfl, by decide⟩

/-- C7 amended: the identifier cited as "previous" in the commit message
is the **declared** manifest version in the SAME scenario and the latest
marker's version in the REGRESSED scenario; BOOTSTRAP and AHEAD perform
no commit at all. -/
theorem claim_C7_amended (d l : Str) :
    ((runDecide d none).map RunResult.commitPrev = .ok none)
    ∧ (∀ r, runDecide d (some l) = .ok r →
        (r.scenario = .same → r.commitPrev = some d)
        ∧ (r.scenario = .regressed → r.commitPrev = some l)
        ∧ (r.scenario = .ahead → r.commitPrev = none)
        ∧ r.scenario ≠ .bootstrap) := by
  refine ⟨rfl, ?_⟩
  intro r h
  cases hcv : compareVersions d l with
  | error e => rw [runDecide_error d l e hcv] at h; cases h
  | ok c =>
    rw [runDecide_some d l c hcv] at h
    by_cases h0 : c = 0
    · rw [if_pos h0] at h
      cases h
      exact ⟨fun _ => rfl, fun hs => Scenario.noConfusion hs,
        fun hs => Scenario.noConfusion hs, fun hs => Scenario.noConfusion hs⟩
    · rw [if_neg h0] at h
      by_cases hlt : c < 0
      · rw [if_pos hlt] at h
        cases h
        exact ⟨fun hs => Scenario.noConfusion hs, fun _ => rfl,
          fun hs => Scenario.noConfusion hs, fun hs => Scenario.noConfusion hs⟩
      · rw [if_neg hlt] at h
        cases h
        exact ⟨fun hs => Scenario.noConfusion hs, fun hs => Scenario.noConfusion hs,
          fun _ => rfl, fun hs => Scenario.noConfusion hs⟩

/-- C7 witness: in the REGRESSED scenario at declared `1.0.0+1`, latest
`1.5.3+15`, the baseline cited is the latest marker's version. -/
theorem claim_C7_witness :
    RunResult.commitPrev ⟨.regressed, ("1.5.4+16").toList, true, true, true,
        some (("1.5.3+15").toList), ("1.5.3+15").toList, ("1.5.4+16").toList,
        true, ("1.5.4+16").toList⟩ = some (("1.5.3+15").toList) := by
  have h := ((claim_C7_amended (("1.0.0+1").toList) (("1.5.3+15").toList)).2
    ⟨.regressed, ("1.5.4+16").toList, true, true, true,
      some (("1.5.3+15").toList), ("1.5.3+15").toList, ("1.5.4+16").toList,
      true, ("1.5.4+16").toList⟩ rfl).2.1 rfl
  exact h

/-- C9 counterexample: the resolver does not strip an arbitrary
non-numeric prefix — the marker name `"r1.0.0"` is returned verbatim,
with its non-numeric leading `'r'` intact. -/
theorem claim_C9_cex :
    getLatestTag (Except.ok (("r1.0.0").toList)) = some (("r1.0.0").toList)
    ∧ isDig 'r' = false
    ∧ (("r1.0.0").toList : Str) ≠ ("1.0.0").toList := ⟨rfl, rfl, by decide⟩

/-- C9 amended: the resolver strips exactly one leading `'v'` (and no
other prefix) from the first tag line; an empty tag list yields `none`
(not an error), and a failing enumeration yields `none` as well. -/
theorem claim_C9_amended (e s first : Str) :
    getLatestTag (Except.error e) = none
    ∧ getLatestTag (Except.ok ([] : Str)) = none
    ∧ (s ≠ [] → trimJS ((splitOnChar '\n' s).headD []) = first → first ≠ [] →
        getLatestTag (Except.ok s) = some (vStrip first))
    ∧ (∀ c cs, vStrip (c :: cs) = if c = 'v' then cs else c :: cs) := by
  refine ⟨rfl, rfl, ?_, fun c cs => rfl⟩
  intro hs hfirst hfne
  rw [getLatestTag, if_neg hs, hfirst, if_neg hfne]

/-- C9 witness: the tag list whose first line is `"v1.2.3"` resolves to
`"1.2.3"`. -/
theorem claim_C9_witness :
    getLatestTag (Except.ok (("v1.2.3").toList)) = some (("1.2.3").toList) := by
  have h := (claim_C9_amended [] (("v1.2.3").toList) (("v1.2.3").toList)).2.2.1
    (by decide) rfl (by decide)
  exact h

/-- C5 counterexample: at patch = 2^53 the double addition loses the
increment — `"0.0.9007199254740992"` parses with patch 2^53, and the
incremented version's patch component is still 2^53, not 2^53 + 1 (the
`+ 1` is rounded away, as in JS where
`9007199254740992 + 1 === 9007199254740992`). -/
theorem claim_C5_cex :
    (parseFlutterVersion (("0.0.9007199254740992").toList)).map
        FlutterVersion.patch = some 9007199254740992
    ∧ generateNextVersion (("0.0.9007199254740992").toList) =
        ("0.0.9007199254740992+1").toList
    ∧ (parseFlutterVersion (generateNextVersion (("0.0.9007199254740992").toList))).map
        FlutterVersion.patch = some 9007199254740992
    ∧ (9007199254740992 : Int) ≠ 9007199254740992 + 1 :=
  ⟨rfl, rfl, rfl, by decide⟩

/-- C5 amended: increment of an unparseable input is `1.0.0+1`; for any
parseable identifier whose major, minor, incremented patch and (when
numeric) incremented build counter all stay within 2^53 - 1 in
magnitude, increment keeps major and minor unchanged, advances patch by
exactly one, and advances the build counter by exactly one (a `NaN`
build stays `NaN`); at 2^53 the double arithmetic stops advancing. -/
theorem claim_C5_amended (x : Str) :
    (parseFlutterVersion x = none → generateNextVersion x = ("1.0.0+1").toList)
    ∧ (∀ p, parseFlutterVersion x = some p →
        p.major.natAbs ≤ MAX_SAFE_INTEGER →
        p.minor.natAbs ≤ MAX_SAFE_INTEGER →
        (p.patch + 1).natAbs ≤ MAX_SAFE_INTEGER →
        (∀ v, p.build = JSNum.int v → (v + 1).natAbs ≤ MAX_SAFE_INTEGER) →
        (parseFlutterVersion (generateNextVersion x)).map FlutterVersion.major =
          some p.major
        ∧ (parseFlutterVersion (generateNextVersion x)).map FlutterVersion.minor =
          some p.minor
        ∧ (parseFlutterVersion (generateNextVersion x)).map FlutterVersion.patch =
          some (p.patch + 1)
        ∧ (parseFlutterVersion (generateNextVersion x)).map FlutterVersion.build =
          some (match p.build with
                | JSNum.nan => JSNum.nan
                | JSNum.int v => JSNum.int (v + 1))) := by
  have hms : MAX_SAFE_INTEGER ≤ 9007199254740992 := by unfold MAX_SAFE_INTEGER; omega
  constructor
  · intro h
    rw [generateNextVersion, h]
  · intro p hp hM hm hP hB
    have rM : roundDouble p.major = p.major :=
      roundDouble_eq_self (le_trans hM hms)
    have rm : roundDouble p.minor = p.minor :=
      roundDouble_eq_self (le_trans hm hms)
    have rP : roundDouble (p.patch + 1) = p.patch + 1 :=
      roundDouble_eq_self (le_trans hP hms)
    rw [generateNext_parse hp]
    refine ⟨?_, ?_, ?_, ?_⟩
    · show some (roundDouble p.major) = some p.major
      rw [rM]
    · show some (roundDouble p.minor) = some p.minor
      rw [rm]
    · show some (roundDouble (roundDouble (p.patch + 1))) = some (p.patch + 1)
      rw [rP, rP]
    · cases hb : p.build with
      | nan =>
        simp only [hb]
        rfl
      | int v =>
        have rB : roundDouble (v + 1) = v + 1 :=
          roundDouble_eq_self (le_trans (hB v hb) hms)
        simp only [hb, rB]
        rfl

/-- C5 witness: incrementing `1.0.0+1` (all components far below 2^53)
parses back with patch 1 and build counter 2. -/
theorem claim_C5_witness :
    (parseFlutterVersion (generateNextVersion (("1.0.0+1").toList))).map
        FlutterVersion.patch = some 1
    ∧ (parseFlutterVersion (generateNextVersion (("1.0.0+1").toList))).map
        FlutterVersion.build = some (.int 2) := by
  have h := (claim_C5_amended (("1.0.0+1").toList)).2
    ⟨1, 0, 0, .int 1, ("1.0.0").toList, ("1.0.0+1").toList⟩ rfl
    (by decide) (by decide) (by decide)
    (by intro v hv; cases hv; decide)
  exact ⟨h.2.2.1, h.2.2.2⟩

/-!
### Result-range lemmas for the comparator
-/

theorem cmpNat_cases (a b : Nat) :
    cmpNat a b = -1 ∨ cmpNat a b = 0 ∨ cmpNat a b = 1 := by
  unfold cmpNat
  split_ifs <;> simp

theorem cmpNat_self (a : Nat) : cmpNat a a = 0 := by
  unfold cmpNat
  rw [if_neg (by omega), if_neg (by omega)]

theorem cmpNat_succ_self (a : Nat) : cmpNat (a + 1) a = 1 := by
  unfold cmpNat
  rw [if_neg (by omega), if_pos (by omega)]

theorem cmpStr_cases : ∀ (a b : Str), cmpStr a b = -1 ∨ cmpStr a b = 0 ∨ cmpStr a b = 1
  | [], [] => by simp [cmpStr]
  | [], _ :: _ => by simp [cmpStr]
  | _ :: _, [] => by simp [cmpStr]
  | a :: as, b :: bs => by
    rw [cmpStr]
    split_ifs <;> first | simp | exact cmpStr_cases as bs

theorem preIdCmp_cases (a b : PreId) :
    preIdCmp a b = -1 ∨ preIdCmp a b = 0 ∨ preIdCmp a b = 1 := by
  unfold preIdCmp
  cases preIdNum? a with
  | none =>
    cases preIdNum? b with
    | none =>
      cases a with
      | num n => cases b <;> simp
      | str x =>
        cases b with
        | num m => simp
        | str y => exact cmpStr_cases x y
    | some y => simp
  | some x =>
    cases preIdNum? b with
    | none => simp
    | some y => exact cmpNat_cases x y

theorem preLoop_cases : ∀ (a b : List PreId),
    preLoop a b = -1 ∨ preLoop a b = 0 ∨ preLoop a b = 1
  | [], [] => by simp [preLoop]
  | _ :: _, [] => by simp [preLoop]
  | [], _ :: _ => by simp [preLoop]
  | a :: as, b :: bs => by
    rw [preLoop]
    split_ifs
    · exact preLoop_cases as bs
    · exact preIdCmp_cases a b

theorem semverCmpPre_cases (a b : List PreId) :
    semverCmpPre a b = -1 ∨ semverCmpPre a b = 0 ∨ semverCmpPre a b = 1 := by
  cases a with
  | nil => cases b <;> simp [semverCmpPre]
  | cons x xs =>
    cases b with
    | nil => simp [semverCmpPre]
    | cons y ys => exact preLoop_cases (x :: xs) (y :: ys)

theorem compareVersions_some {a b : Str} {pa pb : FlutterVersion} {c : Int}
    (hpa : parseFlutterVersion a = some pa) (hpb : parseFlutterVersion b = some pb)
    (hsc : semverCompare pa.base pb.base = .ok c) :
    compareVersions a b =
      if c ≠ 0 then .ok c
      else if jsGt pa.build pb.build then .ok 1
      else if jsLt pa.build pb.build then .ok (-1)
      else .ok 0 := by
  rw [compareVersions, hpa, hpb]
  show (match semverCompare pa.base pb.base with
        | .error e => Except.error e
        | .ok baseComparison =>
          if baseComparison ≠ 0 then Except.ok baseComparison
          else if jsGt pa.build pb.build then Except.ok 1
          else if jsLt pa.build pb.build then Except.ok (-1)
          else Except.ok 0) = _
  rw [hsc]

theorem compareVersions_error {a b : Str} {pa pb : FlutterVersion} {e : Str}
    (hpa : parseFlutterVersion a = some pa) (hpb : parseFlutterVersion b = some pb)
    (hsc : semverCompare pa.base pb.base = .error e) :
    compareVersions a b = .error e := by
  rw [compareVersions, hpa, hpb]
  show (match semverCompare pa.base pb.base with
        | .error e => Except.error e
        | .ok baseComparison =>
          if baseComparison ≠ 0 then Except.ok baseComparison
          else if jsGt pa.build pb.build then Except.ok 1
          else if jsLt pa.build pb.build then Except.ok (-1)
          else Except.ok 0) = _
  rw [hsc]

theorem semverCmp_cases (x y : SemVer) :
    semverCmp x y = -1 ∨ semverCmp x y = 0 ∨ semverCmp x y = 1 := by
  unfold semverCmp
  dsimp only
  split_ifs with h1 h2 h3
  · exact cmpNat_cases _ _
  · exact cmpNat_cases _ _
  · exact cmpNat_cases _ _
  · exact semverCmpPre_cases _ _

/-- C4 counterexample: both `"1.0"` and `"2.0"` parse permissively, but
the comparator throws `Invalid Version` because the base `"1.0"` is not
a strict semver triple — it does not return GREATER, EQUAL or LESS. -/
theorem claim_C4_cex :
    compareVersions (("1.0").toList) (("2.0").toList) =
      .error (("Invalid Version: 1.0").toList)
    ∧ (Except.error (("Invalid Version: 1.0").toList) : Except Str Int) ≠ .ok 1
    ∧ (Except.error (("Invalid Version: 1.0").toList) : Except Str Int) ≠ .ok 0
    ∧ (Except.error (("Invalid Version: 1.0").toList) : Except Str Int) ≠ .ok (-1) :=
  ⟨rfl, fun h => Except.noConfusion h, fun h => Except.noConfusion h,
    fun h => Except.noConfusion h⟩

/-- C4 amended: if either input fails the permissive parse the comparator
returns EQUAL; if both parse **and both bases are valid strict semver**
it returns one of LESS, EQUAL, GREATER without throwing; but when a base
is not valid strict semver it throws `Invalid Version` instead of
returning. -/
theorem claim_C4_amended (a b : Str) :
    (parseFlutterVersion a = none → compareVersions a b = .ok 0)
    ∧ (parseFlutterVersion b = none → compareVersions a b = .ok 0)
    ∧ (∀ pa pb sa sb, parseFlutterVersion a = some pa →
        parseFlutterVersion b = some pb →
        semverParse pa.base = some sa → semverParse pb.base = some sb →
        compareVersions a b = .ok (-1) ∨ compareVersions a b = .ok 0 ∨
          compareVersions a b = .ok 1)
    ∧ (∀ pa pb, parseFlutterVersion a = some pa →
        parseFlutterVersion b = some pb →
        semverParse pa.base = none →
        compareVersions a b = .error (invalidMsg pa.base)) := by
  refine ⟨?_, ?_, ?_, ?_⟩
  · intro h
    rw [compareVersions, h]
  · intro h
    cases hpa : parseFlutterVersion a with
    | none => rw [compareVersions, hpa]
    | some pa => rw [compareVersions, hpa, h]
  · intro pa pb sa sb hpa hpb hsa hsb
    have hsc : semverCompare pa.base pb.base = .ok (semverCmp sa sb) := by
      rw [semverCompare, hsa, hsb]
    rw [compareVersions_some hpa hpb hsc]
    rcases semverCmp_cases sa sb with h | h | h
    · rw [h, if_pos (by norm_num)]
      left
      rfl
    · rw [h, if_neg (by norm_num)]
      cases hg : jsGt pa.build pb.build with
      | true => rw [if_pos rfl]; right; right; rfl
      | false =>
        rw [if_neg (by simp)]
        cases hl : jsLt pa.build pb.build with
        | true => rw [if_pos rfl]; left; rfl
        | false => rw [if_neg (by simp)]; right; left; rfl
    · rw [h, if_pos (by norm_num)]
      right
      right
      rfl
  · intro pa pb hpa hpb hsa
    have hsc : semverCompare pa.base pb.base = .error (invalidMsg pa.base) := by
      rw [semverCompare, hsa]
    rw [compareVersions_error hpa hpb hsc]

/-- C4 witness: `"1.0.0"` against `"2.0.0"` — both bases valid semver —
returns one of the three comparison values (here LESS). -/
theorem claim_C4_witness :
    compareVersions (("1.0.0").toList) (("2.0.0").toList) = .ok (-1) ∨
    compareVersions (("1.0.0").toList) (("2.0.0").toList) = .ok 0 ∨
    compareVersions (("1.0.0").toList) (("2.0.0").toList) = .ok 1 :=
  (claim_C4_amended (("1.0.0").toList) (("2.0.0").toList)).2.2.1
    ⟨1, 0, 0, .int 0, ("1.0.0").toList, ("1.0.0").toList⟩
    ⟨2, 0, 0, .int 0, ("2.0.0").toList, ("2.0.0").toList⟩
    ⟨1, 0, 0, []⟩ ⟨2, 0, 0, []⟩ rfl rfl rfl rfl

/-!
### C2: monotonicity of the incrementer
-/

theorem intRender_natCast (n : Nat) : intRender ((n : Nat) : Int) = natRender n := by
  unfold intRender
  rw [if_neg (not_lt.mpr (Int.natCast_nonneg n)), Int.toNat_natCast]

/-- C2 counterexample: `"1.0"` is parseable (parse is permissive), but
comparing `increment("1.0") = "1.0.1+1"` against it throws
`Invalid Version: 1.0` in the semver comparator instead of returning
GREATER; and at `"v1.2.3"` (strict semver accepts the `v` prefix and
reads 1.2.3, while the permissive parser reads major 0, so
`increment("v1.2.3") = "0.2.4+1"`) the comparison returns LESS without
throwing — in neither case GREATER. -/
theorem claim_C2_cex :
    compareVersions (generateNextVersion (("1.0").toList)) (("1.0").toList) =
      .error (("Invalid Version: 1.0").toList)
    ∧ (Except.error (("Invalid Version: 1.0").toList) : Except Str Int) ≠ .ok 1
    ∧ compareVersions (generateNextVersion (("v1.2.3").toList)) (("v1.2.3").toList) =
        .ok (-1)
    ∧ (Except.ok (-1) : Except Str Int) ≠ .ok 1 :=
  ⟨rfl, fun h => Except.noConfusion h, rfl,
    fun h => absurd (Except.ok.inj h) (by decide)⟩

/-- C2 amended: `compare(increment(x), x) = GREATER` holds for every
parseable `x` whose base is valid strict semver **and** whose numeric
components agree between the permissive parser and semver (ruling out
e.g. a `v` prefix), with the incremented patch within 2^53 - 1; outside
these hypotheses the comparison can fail to be GREATER — it throws
`Invalid Version` at `x = "1.0"` and returns LESS at `x = "v1.2.3"`. -/
theorem claim_C2_amended (x : Str) (p : FlutterVersion) (sv : SemVer)
    (hp : parseFlutterVersion x = some p) (hsv : semverParse p.base = some sv)
    (hmaj : p.major = (sv.major : Int)) (hmin : p.minor = (sv.minor : Int))
    (hpat : p.patch = (sv.patch : Int)) (hbound : sv.patch + 1 ≤ MAX_SAFE_INTEGER) :
    compareVersions (generateNextVersion x) x = .ok 1 := by
  have hq := generateNext_parse hp
  obtain ⟨bM, bm, _⟩ := semverParse_bounds hsv
  have hr : roundDouble (p.patch + 1) = ((sv.patch + 1 : Nat) : Int) := by
    rw [hpat, show ((sv.patch : Int) + 1) = ((sv.patch + 1 : Nat) : Int) by push_cast; ring]
    exact roundDouble_eq_self (by
      rw [Int.natAbs_ofNat]
      unfold MAX_SAFE_INTEGER at hbound
      omega)
  have hbase :
      intRender p.major ++ '.' ::
        (intRender p.minor ++ '.' :: intRender (roundDouble (p.patch + 1))) =
      natRender sv.major ++ '.' :: (natRender sv.minor ++ '.' :: natRender (sv.patch + 1)) := by
    rw [hmaj, hmin, hr, intRender_natCast, intRender_natCast, intRender_natCast]
  have hparse2 : semverParse
      (intRender p.major ++ '.' ::
        (intRender p.minor ++ '.' :: intRender (roundDouble (p.patch + 1)))) =
      some ⟨sv.major, sv.minor, sv.patch + 1, []⟩ := by
    rw [hbase]
    exact semverParse_canonical bM bm hbound
  have hcmp : semverCmp ⟨sv.major, sv.minor, sv.patch + 1, []⟩ sv = 1 := by
    unfold semverCmp
    dsimp only
    rw [cmpNat_self, cmpNat_self, cmpNat_succ_self]
    norm_num
  have hsc : semverCompare
      (intRender p.major ++ '.' ::
        (intRender p.minor ++ '.' :: intRender (roundDouble (p.patch + 1))))
      p.base = .ok 1 := by
    rw [semverCompare, hparse2, hsv]
    show Except.ok (semverCmp ⟨sv.major, sv.minor, sv.patch + 1, []⟩ sv) = Except.ok 1
    rw [hcmp]
  rw [compareVersions_some hq hp hsc, if_pos (by norm_num)]

/-- C2 witness: at `x = "1.2.3+4"` (base `1.2.3`, valid semver, in
agreement with the permissive parse) the incremented version compares
GREATER. -/
theorem claim_C2_witness :
    compareVersions (generateNextVersion (("1.2.3+4").toList)) (("1.2.3+4").toList) =
      .ok 1 :=
  claim_C2_amended (("1.2.3+4").toList)
    ⟨1, 2, 3, .int 4, ("1.2.3").toList, ("1.2.3+4").toList⟩
    ⟨1, 2, 3, []⟩ rfl rfl rfl rfl rfl (by decide)

/-!
### C8: re-entrancy of the publish executor
-/

theorem executeBumpPlan_post (branch v pm cm : Str) (st : RepoState) :
    (executeBumpPlan branch v pm cm st).1.manifestVersion = v ∧
    (executeBumpPlan branch v pm cm st).1.dirty = false := by
  obtain ⟨mv, dirty, tags⟩ := st
  unfold executeBumpPlan commitPushAndTag createAndPushTag updatePubspecVersion
  dsimp only
  split_ifs <;> simp_all

theorem executeBumpPlan_rerun (branch v pm cm : Str) (st1 : RepoState)
    (hm : st1.manifestVersion = v) (hd : st1.dirty = false) :
    executeBumpPlan branch v pm cm st1 = (st1, [.writeManifest v, .statusQuery]) := by
  obtain ⟨m1, d1, t1⟩ := st1
  simp only [] at hm hd
  subst hm
  subst hd
  simp [executeBumpPlan, updatePubspecVersion, commitPushAndTag]

/-- C8 counterexample: rerunning the SAME-plan body against the state
the first run produced performs only the manifest rewrite and the
`git status` check — the tag-existence check is never reached (the claim
says marker creation is still checked) — and the SAME branch reports
`version-updated = true`, not `false`, on a second full run. -/
theorem claim_C8_cex :
    (executeBumpPlan (("main").toList) (("1.0.1+2").toList) (("1.0.0+1").toList) []
        ((executeBumpPlan (("main").toList) (("1.0.1+2").toList) (("1.0.0+1").toList) []
          ⟨("1.0.0+1").toList, false, ['v' :: ("1.0.0+1").toList]⟩).1)).2 =
      [.writeManifest (("1.0.1+2").toList), .statusQuery]
    ∧ mentionsTagQuery
        [GitStep.writeManifest (("1.0.1+2").toList), GitStep.statusQuery] = false
    ∧ (runDecide (("1.0.1+2").toList) (some (("1.0.1+2").toList))).map
        (fun r => r.updatedOut) = .ok true := ⟨rfl, rfl, rfl⟩

/-- C8 amended: a second execution of a SAME/REGRESSED plan body against
the first execution's state does not error: the working tree is clean, so
the commit/push **and** the whole tag step are skipped (the executor
returns before any marker check), leaving the state unchanged — the
trace of the second run is exactly the manifest write and the status
query, with no tag query in it. -/
theorem claim_C8_amended (branch v pm cm : Str) (st : RepoState) :
    (executeBumpPlan branch v pm cm st).1.manifestVersion = v
    ∧ (executeBumpPlan branch v pm cm st).1.dirty = false
    ∧ executeBumpPlan branch v pm cm ((executeBumpPlan branch v pm cm st).1) =
        ((executeBumpPlan branch v pm cm st).1, [.writeManifest v, .statusQuery])
    ∧ mentionsTagQuery [GitStep.writeManifest v, GitStep.statusQuery] = false := by
  obtain ⟨hm, hd⟩ := executeBumpPlan_post branch v pm cm st
  exact ⟨hm, hd, executeBumpPlan_rerun branch v pm cm _ hm hd, rfl⟩

end FlutterAction
